import Mathlib

/-!
Verification of the `nextsales` webcomic revenue-analytics dashboard
(`src/app.py`, `src/pages/home.py`, `src/pages/contents_sales.py`).

Modelling conventions of the shallow embedding:
* dates are integers (day numbers); `pd.to_datetime(..., errors="coerce")`
  is an `Option ℤ` date field, with `none` standing for `NaT`;
* money amounts and thresholds are rationals; coin quantities are integers;
* a pandas `DataFrame` is a list of row structures, column operations are
  `List.map` / `List.filter`;
* `Series.rolling(7, center=True, min_periods=1).mean()` (app.py line 180)
  becomes `rollingMean`: at index `i` the window is the slice of indices
  `[i - w/2, i + w/2]` clipped to the series bounds;
* `st.stop()` after `st.error` (app.py lines 155-157) becomes an
  `Except.error` value, so that downstream computations are skipped.
-/

namespace NextSales

/-! ## Definitions: baseline estimator and event detector (app.py 179-181) -/

/-- Mean of a list of rationals; pandas `.mean()` over a window
(`xs.sum / 0 = 0` can only arise on an empty window, which
`min_periods=1` on a nonempty series rules out). -/
def listMean (xs : List ℚ) : ℚ := xs.sum / xs.length

/-- The slice of values covered by the centered rolling window of width `w`
at index `i`: indices `[i - w/2, i + w/2]` clipped to the series bounds,
as produced by `rolling(w, center=True, min_periods=1)` for odd `w`
(app.py line 180 uses `w = 7`). -/
def rollingWindow (vals : List ℚ) (w i : ℕ) : List ℚ :=
  (vals.drop (i - w / 2)).take (i + w / 2 + 1 - (i - w / 2))

/-- Embedding of `df_pay["amount"].rolling(7, center=True, min_periods=1).mean()`
(app.py line 180), generalized over the window width. -/
def rollingMean (vals : List ℚ) (w : ℕ) : List ℚ :=
  (List.range vals.length).map (fun i => listMean (rollingWindow vals w i))

/-- Embedding of `df_pay["event_flag"] = df_pay["amount"] > df_pay["rolling_avg"] *
st.session_state.pay_thresh` (app.py line 181): elementwise comparison of the
value column against the scaled baseline column. -/
def eventFlags (vals : List ℚ) (w : ℕ) (t : ℚ) : List Bool :=
  List.zipWith (fun v b => decide (b * t < v)) vals (rollingMean vals w)

/-- Minimum of a list (0 on the empty list, which is never used). -/
def listMin (xs : List ℚ) : ℚ :=
  match xs with
  | [] => 0
  | x :: r => r.foldl min x

/-- Maximum of a list (0 on the empty list, which is never used). -/
def listMax (xs : List ℚ) : ℚ :=
  match xs with
  | [] => 0
  | x :: r => r.foldl max x

/-- Spec-side window, written from the spec's words for comparison with the
source-derived `rollingWindow`: the values at indices
`[i - floor(w/2), i + floor(w/2)]` (computed in ℤ, so the lower bound may be
negative) intersected with the valid series bounds. -/
def specWindow (vals : List ℚ) (w i : ℕ) : List ℚ :=
  ((List.range vals.length).filter
    (fun (j : ℕ) => decide ((i : ℤ) - (w / 2 : ℕ) ≤ (j : ℤ)) &&
              decide ((j : ℤ) ≤ (i : ℤ) + (w / 2 : ℕ)))).map
    (fun j => vals.getD j 0)

/-! ## Definitions: loaders and the empty-series guard
(app.py 53-81, 146-157; pages/home.py 20-34, 54-60) -/

/-- Raw row of the payment query in app.py (lines 57-70): the `date` column
after `pd.to_datetime(..., errors="coerce")`, where `none` is `NaT`
(a parse failure), plus the summed amount and first-payment count. -/
structure RawPayRow where
  date : Option ℤ
  amount : ℚ
  firstCount : ℤ
deriving DecidableEq

/-- Raw row of the payment query in pages/home.py (lines 25-33). -/
structure HomePayRow where
  date : Option ℤ
  amount : ℚ
deriving DecidableEq

/-- Embedding of `load_payment_data` in app.py (lines 71-77): splits the rows
into `(clean_df, bad_rows)` by whether the date parsed. -/
def load_payment_data (rows : List RawPayRow) :
    List RawPayRow × List RawPayRow :=
  (rows.filter (fun r => r.date.isSome), rows.filter (fun r => r.date.isNone))

/-- Embedding of `load_payment_data` in pages/home.py (lines 32-34):
`df.dropna(subset=["date"])` — unparseable rows are dropped and only the
cleaned frame is returned. -/
def load_payment_data_home (rows : List HomePayRow) : List HomePayRow :=
  rows.filter (fun r => r.date.isSome)

/-- Failure kinds of the payment pipeline.  `emptySeriesError` models the
`st.error("❌ ..."); st.stop()` path taken at app.py lines 155-157 when the
cleaned payment frame is empty. -/
inductive SeriesError where
  | emptySeriesError
deriving DecidableEq

/-- Embedding of app.py lines 146 and 155-157: load the payment data, and
halt with a distinct failure if no valid rows remain. -/
def pay_guard (rows : List RawPayRow) :
    Except SeriesError (List RawPayRow × List RawPayRow) :=
  if (load_payment_data rows).1.isEmpty then .error .emptySeriesError
  else .ok (load_payment_data rows)

/-- Ascending insertion by date, used to model `sort_values("date")`
(app.py line 179).  Cleaned rows always have `some` dates, so the
`getD 0` default is never the deciding value. -/
def insertByDate (r : RawPayRow) : List RawPayRow → List RawPayRow
  | [] => [r]
  | q :: rest =>
    if r.date.getD 0 < q.date.getD 0 then r :: q :: rest
    else q :: insertByDate r rest

/-- Embedding of `pay_df.sort_values("date")` (app.py line 179). -/
def sort_values_date (rows : List RawPayRow) : List RawPayRow :=
  rows.foldr insertByDate []

/-- Top-level payment analysis (app.py lines 146-181): load, stop on an empty
series, otherwise sort by date and compute the event flags.  Downstream
computations run only on the `.ok` branch. -/
def app_payment_analysis (rows : List RawPayRow) (t : ℚ) :
    Except SeriesError (List Bool) :=
  match pay_guard rows with
  | .error e => .error e
  | .ok res =>
      .ok (eventFlags ((sort_values_date res.1).map (fun r => r.amount)) 7 t)

/-- Embedding of the `avg_pay` summary metric in pages/home.py (lines 58-60):
`total_pay / days_count if days_count else 0`, where `days_count` is the
number of distinct dates of the cleaned frame. -/
def avg_pay (rows : List HomePayRow) : ℚ :=
  if (((load_payment_data_home rows).map (fun r => r.date)).dedup).length ≠ 0
  then ((load_payment_data_home rows).map (fun r => r.amount)).sum /
    (((((load_payment_data_home rows).map (fun r => r.date)).dedup).length : ℕ)
      : ℚ)
  else 0

/-! ## Definitions: threshold slider (app.py 163-176) -/

/-- Guarantee of the `st.slider` widget at app.py lines 165-170: whatever the
user requests, the returned percentage lies in `[min_value, max_value] =
[100, 500]`.  The widget is modelled as clamping the requested value. -/
def th_pay_slider (u : ℤ) : ℤ := max 100 (min 500 u)

/-- Embedding of `st.session_state.pay_thresh = th_pay / 100`
(app.py line 173). -/
def pay_thresh_of (u : ℤ) : ℚ := ((th_pay_slider u : ℤ) : ℚ) / 100

/-! ## Definitions: coin ranking, launch dates and ratios
(app.py 273-299; pages/contents_sales.py 52-85) -/

/-- Row of the coin purchase table.  Titles are modelled as integer
identifiers: only equality and a total order on category labels are used by
the code. -/
structure CoinRow where
  date : ℤ
  title : ℤ
  coins : ℤ
deriving DecidableEq

/-- Embedding of `df_p = coin_df[(coin_df.date >= s) & (coin_df.date <= e)]`
(app.py line 275). -/
def coinFilterRange (rows : List CoinRow) (s e : ℤ) : List CoinRow :=
  rows.filter (fun r => decide (s ≤ r.date) && decide (r.date ≤ e))

/-- Sorted-unique insertion of a group key, modelling that pandas `groupby`
returns its group keys in ascending order. -/
def insertKey (t : ℤ) : List ℤ → List ℤ
  | [] => [t]
  | u :: rest =>
    if t = u then u :: rest
    else if t < u then t :: u :: rest
    else u :: insertKey t rest

/-- The ascending list of distinct titles of a frame (`groupby("Title")`
group keys). -/
def groupKeys (rows : List CoinRow) : List ℤ :=
  rows.foldl (fun acc r => insertKey r.title acc) []

/-- Summed coin quantity of one title group
(`groupby("Title")["Total_coins"].sum()` for a single key). -/
def titleSum (rows : List CoinRow) (t : ℤ) : ℤ :=
  ((rows.filter (fun r => r.title = t)).map (fun r => r.coins)).sum

/-- Descending insertion by summed quantity (`sort_values(ascending=False)`),
keeping the relative order of equal sums. -/
def insertDesc (p : ℤ × ℤ) : List (ℤ × ℤ) → List (ℤ × ℤ)
  | [] => [p]
  | q :: rest =>
    if q.2 ≤ p.2 then p :: q :: rest else q :: insertDesc p rest

/-- Sort a list of `(title, sum)` pairs descending by sum. -/
def sortDesc (l : List (ℤ × ℤ)) : List (ℤ × ℤ) := l.foldr insertDesc []

/-- Embedding of `coin_sum = df_p.groupby("Title")["Total_coins"].sum()
.sort_values(ascending=False)` (app.py line 279, contents_sales.py 62-67):
one `(title, summed quantity)` pair per distinct title, sorted descending by
the sum. -/
def coin_sum (rows : List CoinRow) : List (ℤ × ℤ) :=
  sortDesc ((groupKeys rows).map (fun t => (t, titleSum rows t)))

/-- Embedding of `total_coins = int(coin_sum.sum())` (app.py line 280). -/
def totalCoinsApp (rows : List CoinRow) : ℤ :=
  ((coin_sum rows).map (fun p => p.2)).sum

/-- Embedding of `top_n_sum = int(df_top["Total_coins"].sum())` over
`coin_sum.head(top_n)` (app.py lines 286-287). -/
def topSum (rows : List CoinRow) (k : ℕ) : ℤ :=
  (((coin_sum rows).take k).map (fun p => p.2)).sum

/-- Embedding of `ratio = top_n_sum / total_coins if total_coins > 0 else 0`
(app.py line 288). -/
def ratio_app (rows : List CoinRow) (k : ℕ) : ℚ :=
  if 0 < totalCoinsApp rows
  then ((topSum rows k : ℤ) : ℚ) / ((totalCoinsApp rows : ℤ) : ℚ) else 0

/-- Embedding of `total_coins = int(df_p["total_coin"].sum())`
(contents_sales.py line 59): summed over the rows, not over the groups. -/
def totalCoinsRows (rows : List CoinRow) : ℤ :=
  (rows.map (fun r => r.coins)).sum

/-- Embedding of `ratio = top_n_sum / total_coins if total_coins else 0`
(contents_sales.py line 72); Python truthiness makes the guard `≠ 0`. -/
def ratio_cs (rows : List CoinRow) (k : ℕ) : ℚ :=
  if totalCoinsRows rows ≠ 0
  then ((topSum rows k : ℤ) : ℚ) / ((totalCoinsRows rows : ℤ) : ℚ) else 0

/-- Embedding of `first_launch = coin_df.groupby("Title")["date"].min()`
(app.py line 281): the first-ever observed date of a title across the whole
dataset, `none` when the title never occurs. -/
def first_launch (rows : List CoinRow) (t : ℤ) : Option ℤ :=
  match (rows.filter (fun r => r.title = t)).map (fun r => r.date) with
  | [] => none
  | d :: ds => some (ds.foldl min d)

/-- Embedding of `df_top["is_new"] = pd.to_datetime(df_top["Launch Date"]) >= s`
(app.py line 299): a displayed title is marked new when its launch date is at
or after the window start. -/
def is_new (rows : List CoinRow) (s : ℤ) (t : ℤ) : Bool :=
  match first_launch rows t with
  | some l => decide (s ≤ l)
  | none => false

/-! ## Definitions: payment-cycle view (app.py 363-386) -/

/-- Row of the payment-cycle query (app.py lines 100-121). -/
structure CycleRow where
  user_id : ℤ
  platform : String
  payment_count : ℤ
  amount : ℚ
  date : ℤ
deriving DecidableEq

/-- Row of the inner-joined frame `joined` (app.py line 378): the platform
column comes from the `k`-side frame only. -/
structure JoinedRow where
  user_id : ℤ
  d_k : ℤ
  a_k : ℚ
  platform : String
  d_m : ℤ
  a_m : ℚ
deriving DecidableEq

/-- Embedding of `df_filt = df_raw[df_raw["payment_count"].isin([k, m])]`
(app.py line 363). -/
def df_filt (rows : List CycleRow) (k m : ℤ) : List CycleRow :=
  rows.filter (fun r => r.payment_count = k || r.payment_count = m)

/-- Embedding of `df_k` (app.py lines 367-371): the `k`-th payment records,
keeping date, amount and platform. -/
def df_k (rows : List CycleRow) (k m : ℤ) : List CycleRow :=
  (df_filt rows k m).filter (fun r => r.payment_count = k)

/-- Embedding of `df_m` (app.py lines 372-376): the `m`-th payment records;
the platform column is dropped (only date and amount are kept), which the
join embedding reflects by never reading it. -/
def df_m (rows : List CycleRow) (k m : ℤ) : List CycleRow :=
  (df_filt rows k m).filter (fun r => r.payment_count = m)

/-- Embedding of `joined = df_k.join(df_m, how="inner")` (app.py line 378):
for each `k`-record, pair it with each `m`-record of the same user; the
platform of the output row is the `k`-record's platform, and of the
`m`-record only `d_m` and `a_m` survive (its platform was dropped). -/
def joined (rows : List CycleRow) (k m : ℤ) : List JoinedRow :=
  (df_k rows k m).flatMap (fun rk =>
    ((df_m rows k m).filter (fun rm => rm.user_id = rk.user_id)).map
      (fun rm => ⟨rk.user_id, rk.date, rk.amount, rk.platform,
                  rm.date, rm.amount⟩))

/-- The platform column of the joined frame, whose value counts are the
platform-distribution breakdown (app.py line 386). -/
def plat_list (rows : List CycleRow) (k m : ℤ) : List String :=
  (joined rows k m).map (fun j => j.platform)

/-- Rewrite the platform field of every row whose sequence number is `m`,
leaving everything else unchanged (used to state that the `m`-th record's
platform cannot influence the breakdown). -/
def alterPlatM (f : String → String) (m : ℤ) (rows : List CycleRow) :
    List CycleRow :=
  rows.map (fun r =>
    if r.payment_count = m then
      { r with platform := f r.platform } else r)

/-! ## Lemmas about lists, folds and means -/

theorem foldl_min_le_self {α : Type} [LinearOrder α] (l : List α) (a : α) :
    l.foldl min a ≤ a := by
  induction l generalizing a with
  | nil => simp
  | cons x r ih => exact le_trans (ih (min a x)) (min_le_left a x)

theorem foldl_min_le_mem {α : Type} [LinearOrder α] (l : List α) (a : α) :
    ∀ x ∈ l, l.foldl min a ≤ x := by
  induction l generalizing a with
  | nil => simp
  | cons y r ih =>
    intro x hx
    rcases List.mem_cons.mp hx with h | h
    · subst h; exact le_trans (foldl_min_le_self r (min a x)) (min_le_right a x)
    · exact ih (min a y) x h

theorem foldl_min_mem {α : Type} [LinearOrder α] (l : List α) (a : α) :
    l.foldl min a = a ∨ l.foldl min a ∈ l := by
  induction l generalizing a with
  | nil => left; rfl
  | cons y r ih =>
    rcases ih (min a y) with h | h
    · rcases min_choice a y with hm | hm
      · left; rw [List.foldl_cons, h, hm]
      · right; rw [List.foldl_cons, h, hm]; exact List.mem_cons_self _ _
    · right; exact List.mem_cons_of_mem _ h

theorem self_le_foldl_max {α : Type} [LinearOrder α] (l : List α) (a : α) :
    a ≤ l.foldl max a := by
  induction l generalizing a with
  | nil => simp
  | cons x r ih => exact le_trans (le_max_left a x) (ih (max a x))

theorem mem_le_foldl_max {α : Type} [LinearOrder α] (l : List α) (a : α) :
    ∀ x ∈ l, x ≤ l.foldl max a := by
  induction l generalizing a with
  | nil => simp
  | cons y r ih =>
    intro x hx
    rcases List.mem_cons.mp hx with h | h
    · subst h; exact le_trans (le_max_right a x) (self_le_foldl_max r (max a x))
    · exact ih (max a y) x h

theorem listMin_le (xs : List ℚ) : ∀ x ∈ xs, listMin xs ≤ x := by
  cases xs with
  | nil => simp
  | cons y r =>
    intro x hx
    rcases List.mem_cons.mp hx with h | h
    · subst h; exact foldl_min_le_self r x
    · exact foldl_min_le_mem r y x h

theorem le_listMax (xs : List ℚ) : ∀ x ∈ xs, x ≤ listMax xs := by
  cases xs with
  | nil => simp
  | cons y r =>
    intro x hx
    rcases List.mem_cons.mp hx with h | h
    · subst h; exact self_le_foldl_max r x
    · exact mem_le_foldl_max r y x h

theorem length_pos_of_ne_nil {α : Type} {xs : List α} (h : xs ≠ []) :
    0 < (xs.length : ℚ) := by
  have : 0 < xs.length := List.length_pos.mpr h
  exact_mod_cast this

theorem listMin_le_listMean (xs : List ℚ) (h : xs ≠ []) :
    listMin xs ≤ listMean xs := by
  have hlen : 0 < (xs.length : ℚ) := length_pos_of_ne_nil h
  rw [listMean, le_div_iff₀ hlen, mul_comm]
  have := List.card_nsmul_le_sum xs (listMin xs) (listMin_le xs)
  simpa [nsmul_eq_mul] using this

theorem listMean_le_listMax (xs : List ℚ) (h : xs ≠ []) :
    listMean xs ≤ listMax xs := by
  have hlen : 0 < (xs.length : ℚ) := length_pos_of_ne_nil h
  rw [listMean, div_le_iff₀ hlen, mul_comm]
  have := List.sum_le_card_nsmul xs (listMax xs) (le_listMax xs)
  simpa [nsmul_eq_mul] using this

theorem listMean_nonneg (xs : List ℚ) (h : ∀ x ∈ xs, 0 ≤ x) :
    0 ≤ listMean xs :=
  div_nonneg (List.sum_nonneg h) (Nat.cast_nonneg _)

theorem listMean_pos (xs : List ℚ) (h : ∀ x ∈ xs, 0 ≤ x) {y : ℚ}
    (hy : y ∈ xs) (hpos : 0 < y) : 0 < listMean xs := by
  have hne : xs ≠ [] := List.ne_nil_of_mem hy
  have hsum : y ≤ xs.sum := List.single_le_sum h y hy
  exact div_pos (lt_of_lt_of_le hpos hsum) (length_pos_of_ne_nil hne)

/-! ## Lemmas about the rolling window -/

theorem rollingMean_length (vals : List ℚ) (w : ℕ) :
    (rollingMean vals w).length = vals.length := by
  simp [rollingMean]

theorem eventFlags_length (vals : List ℚ) (w : ℕ) (t : ℚ) :
    (eventFlags vals w t).length = vals.length := by
  simp [eventFlags, rollingMean_length]

theorem rollingMean_getD (vals : List ℚ) (w : ℕ) {i : ℕ} (hi : i < vals.length) :
    (rollingMean vals w).getD i 0 = listMean (rollingWindow vals w i) := by
  rw [List.getD_eq_getElem?_getD, rollingMean, List.getElem?_map,
    List.getElem?_range hi]
  rfl

theorem eventFlags_getD (vals : List ℚ) (w : ℕ) (t : ℚ) {i : ℕ}
    (hi : i < vals.length) :
    (eventFlags vals w t).getD i false =
      decide ((rollingMean vals w).getD i 0 * t < vals.getD i 0) := by
  have hm : i < (rollingMean vals w).length := by rwa [rollingMean_length]
  rw [List.getD_eq_getElem?_getD, eventFlags, List.getElem?_zipWith]
  rw [List.getElem?_eq_getElem hi, List.getElem?_eq_getElem hm]
  simp [List.getD_eq_getElem?_getD, List.getElem?_eq_getElem hi,
    List.getElem?_eq_getElem hm]

theorem getD_mem_rollingWindow (vals : List ℚ) (w : ℕ) {i : ℕ}
    (hi : i < vals.length) : vals.getD i 0 ∈ rollingWindow vals w i := by
  have hlo : i - w / 2 ≤ i := Nat.sub_le _ _
  have hidx : i - (i - w / 2) < (rollingWindow vals w i).length := by
    simp only [rollingWindow, List.length_take, List.length_drop]
    omega
  have hval : (rollingWindow vals w i)[i - (i - w / 2)] = vals.getD i 0 := by
    simp only [rollingWindow]
    rw [List.getElem_take, List.getElem_drop]
    rw [List.getD_eq_getElem vals 0 hi]
    congr 1
    omega
  rw [← hval]
  exact List.getElem_mem hidx

theorem rollingWindow_ne_nil (vals : List ℚ) (w : ℕ) {i : ℕ}
    (hi : i < vals.length) : rollingWindow vals w i ≠ [] :=
  List.ne_nil_of_mem (getD_mem_rollingWindow vals w hi)

theorem rollingWindow_subset (vals : List ℚ) (w i : ℕ) :
    ∀ x ∈ rollingWindow vals w i, x ∈ vals := by
  intro x hx
  have h1 : x ∈ vals.drop (i - w / 2) := List.mem_of_mem_take hx
  exact List.mem_of_mem_drop h1

theorem filter_range_interval (n lo hi : ℕ) :
    (List.range n).filter (fun j => decide (lo ≤ j) && decide (j < hi)) =
      List.range' lo (min n hi - lo) := by
  induction n with
  | zero => simp
  | succ n ih =>
    rw [List.range_succ, List.filter_append, ih]
    by_cases h1 : lo ≤ n
    · by_cases h2 : n < hi
      · have hs : List.filter (fun j => decide (lo ≤ j) && decide (j < hi)) [n]
            = [n] := by simp [h1, h2]
        rw [hs]
        have hmin : min n hi = n := by omega
        have hmin' : min (n + 1) hi = n + 1 := by omega
        rw [hmin, hmin']
        have hcount : n + 1 - lo = (n - lo) + 1 := by omega
        rw [hcount, List.range'_1_concat]
        have hlast : lo + (n - lo) = n := by omega
        rw [hlast]
      · have hs : List.filter (fun j => decide (lo ≤ j) && decide (j < hi)) [n]
            = [] := by simp [h2]
        rw [hs, List.append_nil]
        have hmin : min (n + 1) hi = min n hi := by omega
        rw [hmin]
    · have hs : List.filter (fun j => decide (lo ≤ j) && decide (j < hi)) [n]
          = [] := by simp [h1]
      rw [hs, List.append_nil]
      have h0 : min n hi - lo = 0 := by omega
      have h0' : min (n + 1) hi - lo = 0 := by omega
      rw [h0, h0']

theorem drop_take_eq_range'_map (xs : List ℚ) (lo c : ℕ) :
    (xs.drop lo).take c =
      (List.range' lo (min (xs.length - lo) c)).map (fun j => xs.getD j 0) := by
  apply List.ext_getElem?
  intro idx
  rw [List.getElem?_take, List.getElem?_map]
  by_cases h1 : idx < c
  · rw [if_pos h1, List.getElem?_drop]
    by_cases h2 : lo + idx < xs.length
    · have hidx : idx < min (xs.length - lo) c := by omega
      rw [List.getElem?_eq_getElem h2]
      rw [List.getElem?_eq_getElem (by simpa using hidx)]
      simp [List.getElem_range'_1, List.getD_eq_getElem xs 0 h2,
        List.getElem?_eq_getElem h2]
    · have hnone : xs[lo + idx]? = none := List.getElem?_eq_none (by omega)
      have hnone' : (List.range' lo (min (xs.length - lo) c))[idx]? = none :=
        List.getElem?_eq_none (by simp; omega)
      rw [hnone, hnone']
      rfl
  · rw [if_neg h1]
    have hnone' : (List.range' lo (min (xs.length - lo) c))[idx]? = none :=
      List.getElem?_eq_none (by simp; omega)
    rw [hnone']
    rfl

theorem rollingWindow_eq_specWindow (vals : List ℚ) (w : ℕ) {i : ℕ}
    (hi : i < vals.length) : rollingWindow vals w i = specWindow vals w i := by
  have hfun : ∀ j ∈ List.range vals.length,
      (decide ((i : ℤ) - (w / 2 : ℕ) ≤ (j : ℤ)) &&
        decide ((j : ℤ) ≤ (i : ℤ) + (w / 2 : ℕ)))
      = (decide (i - w / 2 ≤ j) && decide (j < i + w / 2 + 1)) := by
    intro j _
    have e1 : ((i : ℤ) - (w / 2 : ℕ) ≤ (j : ℤ)) ↔ (i - w / 2 ≤ j) := by omega
    have e2 : ((j : ℤ) ≤ (i : ℤ) + (w / 2 : ℕ)) ↔ (j < i + w / 2 + 1) := by omega
    rw [decide_eq_decide.mpr e1, decide_eq_decide.mpr e2]
  rw [specWindow, List.filter_congr hfun, filter_range_interval,
    rollingWindow, drop_take_eq_range'_map]
  have hc : min (vals.length - (i - w / 2)) (i + w / 2 + 1 - (i - w / 2))
      = min vals.length (i + w / 2 + 1) - (i - w / 2) := by omega
  rw [hc]

/-! ## Claim theorems: event detection and baseline (C1, C2, C3) -/

/-- C1: the event detector (app.py lines 179-181) flags day `i` if and only if
`value[i] > rolling_mean[i] * threshold`, where the baseline is the centered
rolling mean of width 7; in particular, for the series
`[(2024-01-01,100), (2024-01-02,100), (2024-01-03,400)]` with window 3 and
threshold 1.5, exactly the day 2024-01-03 is flagged. -/
theorem event_flag_iff_spec :
    (∀ (vals : List ℚ) (t : ℚ) (i : ℕ), i < vals.length →
      ((eventFlags vals 7 t).getD i false = true ↔
        (rollingMean vals 7).getD i 0 * t < vals.getD i 0)) ∧
    eventFlags [100, 100, 400] 3 (3/2) = [false, false, true] := by
  constructor
  · intro vals t i hi
    rw [eventFlags_getD vals 7 t hi, decide_eq_true_eq]
  · norm_num [eventFlags, rollingMean, rollingWindow, listMean, List.range_succ]

/-- Witness for C1 at the concrete series `[100, 100, 400]`, index 2. -/
theorem event_flag_iff_spec_witness :
    ((eventFlags [100, 100, 400] 7 (3/2)).getD 2 false = true ↔
      (rollingMean [100, 100, 400] 7).getD 2 0 * (3/2)
        < ([100, 100, 400] : List ℚ).getD 2 0) ∧
    eventFlags [100, 100, 400] 3 (3/2) = [false, false, true] :=
  ⟨event_flag_iff_spec.1 [100, 100, 400] (3/2) 2 (by simp),
   event_flag_iff_spec.2⟩

/-- C2 counterexample: for the series `[-100, 100]` (nothing in the code
constrains the summed daily amounts to be nonnegative) at threshold 1.5 ≥ 1,
the centered rolling mean at index 1 is 0, yet the code flags the day as an
event, refuting "if the rolling mean is zero then is_event is false". -/
theorem event_zero_baseline_cex :
    (1 : ℚ) ≤ 3/2 ∧
    (rollingMean [(-100 : ℚ), 100] 7).getD 1 0 = 0 ∧
    (eventFlags [(-100 : ℚ), 100] 7 (3/2)).getD 1 false = true := by
  refine ⟨by norm_num, ?_, ?_⟩
  · norm_num [rollingMean, rollingWindow, listMean, List.range_succ]
  · norm_num [eventFlags, rollingMean, rollingWindow, listMean, List.range_succ]

/-- C2 (amended): for every series of NONNEGATIVE values and every threshold
T ≥ 1.0, if the rolling mean at index `i` is zero then `is_event[i]` is false,
and `is_event[i]` can be true only when `value[i] > 0` and `baseline[i] > 0`
(with `min_periods=1` the rolling mean is always defined on a nonempty
series). -/
theorem event_requires_positive (vals : List ℚ) (w : ℕ) (t : ℚ) (ht : 1 ≤ t)
    (hnn : ∀ x ∈ vals, 0 ≤ x) (i : ℕ) (hi : i < vals.length) :
    ((rollingMean vals w).getD i 0 = 0 →
      (eventFlags vals w t).getD i false = false) ∧
    ((eventFlags vals w t).getD i false = true →
      0 < vals.getD i 0 ∧ 0 < (rollingMean vals w).getD i 0) := by
  have hw : ∀ x ∈ rollingWindow vals w i, 0 ≤ x := fun x hx =>
    hnn x (rollingWindow_subset vals w i x hx)
  have hmean : (rollingMean vals w).getD i 0
      = listMean (rollingWindow vals w i) := rollingMean_getD vals w hi
  have hflag : (eventFlags vals w t).getD i false =
      decide ((rollingMean vals w).getD i 0 * t < vals.getD i 0) :=
    eventFlags_getD vals w t hi
  have hkey : (eventFlags vals w t).getD i false = true →
      0 < vals.getD i 0 ∧ 0 < (rollingMean vals w).getD i 0 := by
    intro h
    rw [hflag, decide_eq_true_eq] at h
    have hm0 : 0 ≤ (rollingMean vals w).getD i 0 := by
      rw [hmean]; exact listMean_nonneg _ hw
    have ht0 : (0 : ℚ) ≤ t := le_trans zero_le_one ht
    have hv : 0 < vals.getD i 0 := lt_of_le_of_lt (mul_nonneg hm0 ht0) h
    refine ⟨hv, ?_⟩
    rw [hmean]
    exact listMean_pos _ hw (getD_mem_rollingWindow vals w hi) hv
  refine ⟨?_, hkey⟩
  intro h0
  cases hb : (eventFlags vals w t).getD i false with
  | false => rfl
  | true =>
    have := (hkey hb).2
    rw [h0] at this
    exact absurd this (lt_irrefl 0)

/-- Witness for C2 (amended) at the series `[100, 100, 400]`, threshold 1.5,
index 1. -/
theorem event_requires_positive_witness :
    (∀ x ∈ ([100, 100, 400] : List ℚ), 0 ≤ x) ∧
    (((rollingMean [100, 100, 400] 7).getD 1 0 = 0 →
        (eventFlags [100, 100, 400] 7 (3/2)).getD 1 false = false) ∧
      ((eventFlags [100, 100, 400] 7 (3/2)).getD 1 false = true →
        0 < ([100, 100, 400] : List ℚ).getD 1 0 ∧
        0 < (rollingMean [100, 100, 400] 7).getD 1 0)) :=
  ⟨by norm_num,
   event_requires_positive [100, 100, 400] 7 (3/2) (by norm_num)
     (by norm_num) 1 (by simp)⟩

/-- C3: for every series with at least one observation and window width `w`
(the code uses 7), the baseline has exactly one entry per input observation,
entry `i` is the mean of the values at indices
`[i - floor(w/2), i + floor(w/2)]` intersected with the series bounds
(partial windows at the edges use all available points, minimum 1), and every
rolling mean lies within the minimum and maximum of the values in the window
it covers. -/
theorem compute_baseline_props (vals : List ℚ) (w : ℕ) (hne : vals ≠ []) :
    (rollingMean vals w).length = vals.length ∧
    ∀ i : ℕ, i < vals.length →
      (rollingMean vals w).getD i 0 = listMean (specWindow vals w i) ∧
      listMin (rollingWindow vals w i) ≤ (rollingMean vals w).getD i 0 ∧
      (rollingMean vals w).getD i 0 ≤ listMax (rollingWindow vals w i) := by
  refine ⟨rollingMean_length vals w, fun i hi => ?_⟩
  have hmean := rollingMean_getD vals w (i := i) hi
  have hwne := rollingWindow_ne_nil vals w (i := i) hi
  refine ⟨?_, ?_, ?_⟩
  · rw [hmean, rollingWindow_eq_specWindow vals w hi]
  · rw [hmean]; exact listMin_le_listMean _ hwne
  · rw [hmean]; exact listMean_le_listMax _ hwne

/-- Witness for C3 at the concrete series `[100, 100, 400]`, window 3. -/
theorem compute_baseline_props_witness :
    ([100, 100, 400] : List ℚ) ≠ [] ∧
    ((rollingMean [100, 100, 400] 3).length
        = ([100, 100, 400] : List ℚ).length ∧
      ∀ i : ℕ, i < ([100, 100, 400] : List ℚ).length →
        (rollingMean [100, 100, 400] 3).getD i 0
            = listMean (specWindow [100, 100, 400] 3 i) ∧
        listMin (rollingWindow [100, 100, 400] 3 i)
            ≤ (rollingMean [100, 100, 400] 3).getD i 0 ∧
        (rollingMean [100, 100, 400] 3).getD i 0
            ≤ listMax (rollingWindow [100, 100, 400] 3 i)) :=
  ⟨by simp, compute_baseline_props [100, 100, 400] 3 (by simp)⟩

/-! ## Claim theorems: loaders, guards, threshold, ratios (C4, C5, C6, C9) -/

/-- C4 counterexample: the loader of pages/home.py (lines 32-34) returns the
same output for an input with no bad rows and for one with a bad row — the
rejected row is dropped without any signal to the caller, refuting "no loader
drops such rows without signalling them". -/
theorem loader_silent_drop_cex :
    load_payment_data_home [⟨some 0, 5⟩]
      = load_payment_data_home [⟨some 0, 5⟩, ⟨none, 7⟩] ∧
    (([⟨some 0, 5⟩] : List HomePayRow).filter
        (fun r => r.date.isNone)).length = 0 ∧
    (([⟨some 0, 5⟩, ⟨none, 7⟩] : List HomePayRow).filter
        (fun r => r.date.isNone)).length = 1 := by
  refine ⟨?_, ?_, ?_⟩ <;> rfl

/-- C4 (amended): the payment loader of app.py partitions its rows into
`(clean, bad)` — `clean` holds exactly the rows whose date parsed and every
row with an unparseable date is reported in `bad` (available to the caller as
a count and sample) — but the loader of pages/home.py only returns the
cleaned rows, silently dropping unparseable ones. -/
theorem loader_report_props (rows : List RawPayRow) (hrows : List HomePayRow) :
    ((load_payment_data rows).1 ++ (load_payment_data rows).2).Perm rows ∧
    (∀ r ∈ (load_payment_data rows).1, r.date.isSome) ∧
    (∀ r ∈ rows, r.date.isNone → r ∈ (load_payment_data rows).2) ∧
    (∀ r ∈ hrows, r.date.isNone → r ∉ load_payment_data_home hrows) := by
  refine ⟨?_, ?_, ?_, ?_⟩
  · have hcongr : rows.filter (fun r => r.date.isNone)
        = rows.filter (fun r => ! r.date.isSome) := by
      apply List.filter_congr
      intro r _
      cases r.date <;> rfl
    rw [load_payment_data]
    simp only [hcongr]
    exact List.filter_append_perm _ rows
  · intro r hr
    exact (List.mem_filter.mp hr).2
  · intro r hr hnone
    exact List.mem_filter.mpr ⟨hr, by simp [hnone]⟩
  · intro r _ hnone hmem
    have := (List.mem_filter.mp hmem).2
    simp [Option.isNone_iff_eq_none.mp hnone] at this

/-- Witness for C4 (amended) on a concrete pair of frames with one bad row
each. -/
theorem loader_report_props_witness :
    ((load_payment_data [⟨some 1, 2, 0⟩, ⟨none, 3, 0⟩]).1
        ++ (load_payment_data [⟨some 1, 2, 0⟩, ⟨none, 3, 0⟩]).2).Perm
      [⟨some 1, 2, 0⟩, ⟨none, 3, 0⟩] ∧
    (∀ r ∈ (load_payment_data [⟨some 1, 2, 0⟩, ⟨none, 3, 0⟩]).1,
      r.date.isSome) ∧
    (∀ r ∈ ([⟨some 1, 2, 0⟩, ⟨none, 3, 0⟩] : List RawPayRow),
      r.date.isNone → r ∈ (load_payment_data [⟨some 1, 2, 0⟩, ⟨none, 3, 0⟩]).2) ∧
    (∀ r ∈ ([⟨some 4, 5⟩] : List HomePayRow),
      r.date.isNone → r ∉ load_payment_data_home [⟨some 4, 5⟩]) :=
  loader_report_props [⟨some 1, 2, 0⟩, ⟨none, 3, 0⟩] [⟨some 4, 5⟩]

/-- C5: if zero valid rows remain after cleaning, the payment pipeline stops
with the distinct empty-series failure (`st.error` + `st.stop`, app.py lines
155-157, modelled as `Except.error .emptySeriesError`) — not a crash and not
an empty-but-valid result — so the dependent event-detection computation is
skipped. -/
theorem empty_series_guard (rows : List RawPayRow) (t : ℚ)
    (h : rows.filter (fun r => r.date.isSome) = []) :
    app_payment_analysis rows t = .error .emptySeriesError := by
  rw [app_payment_analysis, pay_guard, load_payment_data]
  simp [h]

/-- Witness for C5: a frame whose only row has an unparseable date. -/
theorem empty_series_guard_witness :
    app_payment_analysis [⟨none, 3, 1⟩] (3/2)
      = .error .emptySeriesError :=
  empty_series_guard [⟨none, 3, 1⟩] (3/2) rfl

/-- C6 counterexample: the event detector computes an ordinary Boolean result
at threshold 6.0, which is outside `[1.0, 5.0]` — there is no
`InvalidThresholdError` anywhere in the code (detection is a total
comparison; the slider merely constrains which thresholds are reachable). -/
theorem invalid_threshold_no_error_cex :
    (5 : ℚ) < 6 ∧
    eventFlags [100, 100, 400] 7 6 = [false, false, false] := by
  constructor
  · norm_num
  · norm_num [eventFlags, rollingMean, rollingWindow, listMean,
      List.range_succ]

/-- C6 (amended): the code performs no threshold validation and defines no
`InvalidThresholdError`; instead the slider (app.py lines 165-170) only
yields percentages in `[100, 500]`, so every threshold the event detector is
invoked with lies in `[1.0, 5.0]`. -/
theorem pay_thresh_in_range (u : ℤ) :
    1 ≤ pay_thresh_of u ∧ pay_thresh_of u ≤ 5 := by
  have h1 : (100 : ℤ) ≤ th_pay_slider u := le_max_left _ _
  have h2 : th_pay_slider u ≤ 500 :=
    max_le (by norm_num) (min_le_left _ _)
  constructor
  · rw [pay_thresh_of, le_div_iff₀ (by norm_num : (0 : ℚ) < 100), one_mul]
    exact_mod_cast h1
  · rw [pay_thresh_of, div_le_iff₀ (by norm_num : (0 : ℚ) < 100)]
    calc ((th_pay_slider u : ℤ) : ℚ) ≤ 500 := by exact_mod_cast h2
    _ = 5 * 100 := by norm_num

/-- C9: every ratio over aggregated totals is guarded against a zero
denominator — the Top-K share ratio in app.py (line 288) and in
contents_sales.py (line 72) evaluates to 0 when the total coin sum is 0, and
the average daily payment in home.py (lines 59-60) evaluates to 0 when there
are 0 distinct payment dates — instead of dividing by zero. -/
theorem ratio_zero_guards (rows rows2 : List CoinRow)
    (prows : List HomePayRow) (k k2 : ℕ)
    (h1 : totalCoinsApp rows = 0)
    (h2 : totalCoinsRows rows2 = 0)
    (h3 : (((load_payment_data_home prows).map (fun r => r.date)).dedup).length
      = 0) :
    ratio_app rows k = 0 ∧ ratio_cs rows2 k2 = 0 ∧ avg_pay prows = 0 := by
  refine ⟨?_, ?_, ?_⟩
  · rw [ratio_app, if_neg]
    rw [h1]
    exact lt_irrefl 0
  · rw [ratio_cs, if_neg]
    simp [h2]
  · rw [avg_pay, if_neg]
    simp [h3]

/-- Witness for C9 on empty frames. -/
theorem ratio_zero_guards_witness :
    ratio_app [] 10 = 0 ∧ ratio_cs [] 10 = 0 ∧ avg_pay [] = 0 :=
  ratio_zero_guards [] [] [] 10 10 rfl rfl rfl

/-! ## Lemmas about the descending sort of the ranking view -/

theorem insertDesc_perm (p : ℤ × ℤ) (l : List (ℤ × ℤ)) :
    (insertDesc p l).Perm (p :: l) := by
  induction l with
  | nil => simp [insertDesc]
  | cons q rest ih =>
    rw [insertDesc]
    split
    · exact List.Perm.refl _
    · exact (ih.cons q).trans (List.Perm.swap p q rest)

theorem sortDesc_perm (l : List (ℤ × ℤ)) : (sortDesc l).Perm l := by
  induction l with
  | nil => exact List.Perm.refl _
  | cons p rest ih =>
    exact (insertDesc_perm p (sortDesc rest)).trans (ih.cons p)

theorem pairwise_insertDesc (p : ℤ × ℤ) (l : List (ℤ × ℤ))
    (h : l.Pairwise (fun a b => b.2 ≤ a.2)) :
    (insertDesc p l).Pairwise (fun a b => b.2 ≤ a.2) := by
  induction l with
  | nil => simp [insertDesc]
  | cons q rest ih =>
    rw [insertDesc]
    rcases List.pairwise_cons.mp h with ⟨hq, hrest⟩
    split
    · rename_i hle
      refine List.pairwise_cons.mpr ⟨?_, h⟩
      intro b hb
      rcases List.mem_cons.mp hb with rfl | hb'
      · exact hle
      · exact le_trans (hq b hb') hle
    · rename_i hgt
      refine List.pairwise_cons.mpr ⟨?_, ih hrest⟩
      intro b hb
      have hb2 := (insertDesc_perm p rest).mem_iff.mp hb
      rcases List.mem_cons.mp hb2 with rfl | hb'
      · exact le_of_lt (not_le.mp hgt)
      · exact hq b hb'

theorem sortDesc_pairwise (l : List (ℤ × ℤ)) :
    (sortDesc l).Pairwise (fun a b => b.2 ≤ a.2) := by
  induction l with
  | nil => simp [sortDesc]
  | cons p rest ih => exact pairwise_insertDesc p _ ih

theorem mem_coin_sum {rows : List CoinRow} {x : ℤ × ℤ}
    (hx : x ∈ coin_sum rows) : ∃ t, x = (t, titleSum rows t) := by
  have hx2 := (sortDesc_perm _).mem_iff.mp hx
  rcases List.mem_map.mp hx2 with ⟨t, _, rfl⟩
  exact ⟨t, rfl⟩

theorem titleSum_nonneg (rows : List CoinRow)
    (hnn : ∀ r ∈ rows, 0 ≤ r.coins) (t : ℤ) : 0 ≤ titleSum rows t := by
  apply List.sum_nonneg
  intro x hx
  rcases List.mem_map.mp hx with ⟨r, hr, rfl⟩
  exact hnn r (List.mem_filter.mp hr).1

/-! ## Claim theorems: ranking and launch views (C7, C8) -/

/-- C7 counterexample: for the dataset with title 1 summing to 10 coins and
title 2 summing to -5 coins (negative quantities are possible: the
contents_sales.py query computes `(g_coin - g_coin_cncl) + (b_coin -
b_coin_cncl)`, and nothing constrains the sums), the Top-1 sum 10 exceeds the
sum 5 over all categories, refuting `sum(Top-K) <= sum(all categories)`. -/
theorem ranking_topk_cex :
    ¬ (topSum [⟨0, 1, 10⟩, ⟨0, 2, -5⟩] 1
        ≤ totalCoinsApp [⟨0, 1, 10⟩, ⟨0, 2, -5⟩]) := by
  decide

/-- C7 (amended): for every dataset and every K, the Top-K categories are
sorted descending by summed quantity (deterministically — the view is a pure
function of the dataset, though pandas' unstable quicksort does not guarantee
tie-breaking by category name), and when all quantities are nonnegative the
sum of the Top-K summed quantities is at most the sum over all categories. -/
theorem ranking_topk_props (rows : List CoinRow) (k : ℕ)
    (hnn : ∀ r ∈ rows, 0 ≤ r.coins) :
    ((coin_sum rows).take k).Pairwise (fun a b => b.2 ≤ a.2) ∧
    topSum rows k ≤ totalCoinsApp rows := by
  constructor
  · exact (sortDesc_pairwise _).sublist (List.take_sublist k _)
  · rw [topSum, totalCoinsApp]
    have hsplit : ((coin_sum rows).map (fun p => p.2)).sum
        = (((coin_sum rows).take k).map (fun p => p.2)).sum
          + (((coin_sum rows).drop k).map (fun p => p.2)).sum := by
      rw [← List.sum_append, ← List.map_append, List.take_append_drop]
    rw [hsplit]
    have hdrop : 0 ≤ (((coin_sum rows).drop k).map (fun p => p.2)).sum := by
      apply List.sum_nonneg
      intro x hx
      rcases List.mem_map.mp hx with ⟨p, hp, rfl⟩
      rcases mem_coin_sum (List.mem_of_mem_drop hp) with ⟨t, rfl⟩
      exact titleSum_nonneg rows hnn t
    exact le_add_of_nonneg_right hdrop

/-- Witness for C7 (amended) on a concrete two-title dataset. -/
theorem ranking_topk_props_witness :
    (∀ r ∈ ([⟨0, 1, 10⟩, ⟨0, 2, 5⟩] : List CoinRow), 0 ≤ r.coins) ∧
    (((coin_sum [⟨0, 1, 10⟩, ⟨0, 2, 5⟩]).take 1).Pairwise
        (fun a b => b.2 ≤ a.2) ∧
      topSum [⟨0, 1, 10⟩, ⟨0, 2, 5⟩] 1
        ≤ totalCoinsApp [⟨0, 1, 10⟩, ⟨0, 2, 5⟩]) :=
  ⟨by decide, ranking_topk_props [⟨0, 1, 10⟩, ⟨0, 2, 5⟩] 1 (by decide)⟩

/-- C8: for every title shown in the reporting window `[s, e]` (i.e. with at
least one observation inside the window), its launch date is `some l` where
`l` is the minimum observed date over the ENTIRE dataset (a lower bound of
all its dates, attained at one of them), this launch date never exceeds `e`,
and the title is marked new if and only if the launch date falls within
`[s, e]`. -/
theorem launch_date_props (rows : List CoinRow) (s e t : ℤ)
    (ht : t ∈ (coinFilterRange rows s e).map (fun r => r.title)) :
    ∃ l, first_launch rows t = some l ∧
      (∀ r ∈ rows, r.title = t → l ≤ r.date) ∧
      (∃ r ∈ rows, r.title = t ∧ r.date = l) ∧
      l ≤ e ∧
      (is_new rows s t = true ↔ (s ≤ l ∧ l ≤ e)) := by
  rcases List.mem_map.mp ht with ⟨r0, hr0mem, rfl⟩
  have hr0 := List.mem_filter.mp hr0mem
  have hr0rows : r0 ∈ rows := hr0.1
  have hr0rng : s ≤ r0.date ∧ r0.date ≤ e := by
    have := hr0.2
    simp only [Bool.and_eq_true, decide_eq_true_eq] at this
    exact this
  have hd0 : r0.date ∈ (rows.filter
      (fun r => r.title = r0.title)).map (fun r => r.date) :=
    List.mem_map.mpr ⟨r0, List.mem_filter.mpr ⟨hr0rows, by simp⟩, rfl⟩
  cases hfl : (rows.filter (fun r => r.title = r0.title)).map
      (fun r => r.date) with
  | nil => rw [hfl] at hd0; exact absurd hd0 (List.not_mem_nil _)
  | cons d ds =>
    refine ⟨ds.foldl min d, ?_, ?_, ?_, ?_, ?_⟩
    · rw [first_launch, hfl]
    · intro r hr hrt
      have hmem : r.date ∈ d :: ds := by
        rw [← hfl]
        exact List.mem_map.mpr ⟨r, List.mem_filter.mpr ⟨hr, by simp [hrt]⟩, rfl⟩
      rcases List.mem_cons.mp hmem with hEq | hmem'
      · rw [hEq]; exact foldl_min_le_self ds d
      · exact foldl_min_le_mem ds d _ hmem'
    · have hl : ds.foldl min d ∈ d :: ds := by
        rcases foldl_min_mem ds d with h | h
        · rw [h]; exact List.mem_cons_self _ _
        · exact List.mem_cons_of_mem _ h
      rw [← hfl] at hl
      rcases List.mem_map.mp hl with ⟨r, hrf, hrd⟩
      have hrf' := List.mem_filter.mp hrf
      exact ⟨r, hrf'.1, by simpa using hrf'.2, hrd⟩
    · have hle : ds.foldl min d ≤ r0.date := by
        have hmem : r0.date ∈ d :: ds := by rw [← hfl]; exact hd0
        rcases List.mem_cons.mp hmem with hEq | hmem'
        · rw [hEq]; exact foldl_min_le_self ds d
        · exact foldl_min_le_mem ds d _ hmem'
      exact le_trans hle hr0rng.2
    · have hle : ds.foldl min d ≤ e := by
        have hmem : r0.date ∈ d :: ds := by rw [← hfl]; exact hd0
        rcases List.mem_cons.mp hmem with hEq | hmem'
        · have hde : d ≤ e := hEq ▸ hr0rng.2
          exact le_trans (foldl_min_le_self ds d) hde
        · exact le_trans (foldl_min_le_mem ds d _ hmem') hr0rng.2
      rw [is_new, first_launch, hfl]
      simp only [decide_eq_true_eq]
      exact ⟨fun hs => ⟨hs, hle⟩, fun h => h.1⟩

/-- Witness for C8 on a one-row dataset shown in the window `[0, 10]`. -/
theorem launch_date_props_witness :
    (1 : ℤ) ∈ (coinFilterRange [⟨5, 1, 3⟩] 0 10).map (fun r => r.title) ∧
    (∃ l, first_launch [⟨5, 1, 3⟩] 1 = some l ∧
      (∀ r ∈ ([⟨5, 1, 3⟩] : List CoinRow), r.title = 1 → l ≤ r.date) ∧
      (∃ r ∈ ([⟨5, 1, 3⟩] : List CoinRow), r.title = 1 ∧ r.date = l) ∧
      l ≤ 10 ∧
      (is_new [⟨5, 1, 3⟩] 0 1 = true ↔ (0 ≤ l ∧ l ≤ 10))) :=
  ⟨by decide, launch_date_props [⟨5, 1, 3⟩] 0 10 1 (by decide)⟩

/-! ## Lemmas about the payment-cycle join (C10) -/

theorem filter_map_comm {α : Type} (g : α → α) (p : α → Bool)
    (hp : ∀ a, p (g a) = p a) (l : List α) :
    (l.map g).filter p = (l.filter p).map g := by
  induction l with
  | nil => rfl
  | cons x xs ih =>
    simp only [List.map_cons, List.filter_cons, hp x]
    cases hpx : p x <;> simp [hpx, ih]

theorem alterOne_count (f : String → String) (m : ℤ) (r : CycleRow) :
    (if r.payment_count = m then { r with platform := f r.platform }
      else r).payment_count = r.payment_count := by
  split <;> rfl

theorem df_filt_alter (rows : List CycleRow) (k m : ℤ) (f : String → String) :
    df_filt (alterPlatM f m rows) k m
      = (df_filt rows k m).map
          (fun r => if r.payment_count = m then
            { r with platform := f r.platform } else r) := by
  rw [alterPlatM, df_filt, df_filt]
  apply filter_map_comm
  intro a
  simp only [alterOne_count]

theorem df_k_alter (rows : List CycleRow) (k m : ℤ) (f : String → String)
    (hkm : k ≠ m) : df_k (alterPlatM f m rows) k m = df_k rows k m := by
  rw [df_k, df_filt_alter, df_k,
    filter_map_comm _ _ (fun a => by simp only [alterOne_count]) _]
  have hfix : ∀ r ∈ (df_filt rows k m).filter
      (fun r => decide (r.payment_count = k)),
      (if r.payment_count = m then { r with platform := f r.platform }
        else r) = r := by
    intro r hr
    have hc : r.payment_count = k := by
      simpa using (List.mem_filter.mp hr).2
    rw [if_neg]
    rw [hc]
    exact hkm
  rw [List.map_congr_left hfix, List.map_id']

theorem df_m_alter (rows : List CycleRow) (k m : ℤ) (f : String → String) :
    df_m (alterPlatM f m rows) k m
      = (df_m rows k m).map (fun r => { r with platform := f r.platform }) := by
  rw [df_m, df_filt_alter, df_m,
    filter_map_comm _ _ (fun a => by simp only [alterOne_count]) _]
  apply List.map_congr_left
  intro r hr
  rw [if_pos]
  simpa using (List.mem_filter.mp hr).2

theorem joined_alter (rows : List CycleRow) (k m : ℤ) (f : String → String)
    (hkm : k ≠ m) : joined (alterPlatM f m rows) k m = joined rows k m := by
  rw [joined, df_k_alter rows k m f hkm, df_m_alter rows k m f, joined]
  apply congrArg
  funext rk
  rw [filter_map_comm (fun r => { r with platform := f r.platform })
    (fun rm => decide (rm.user_id = rk.user_id)) (fun a => rfl)
    (df_m rows k m), List.map_map]
  rfl

/-! ## Claim theorem: platform breakdown uses the k-th record (C10) -/

/-- C10: in the payment-cycle view, for every pair of distinct sequence
numbers `(k, m)`, the platform-distribution breakdown is computed from the
platform recorded on each inner-joined user's `k`-th payment record — the
platform of the `m`-th record is discarded before the join: rewriting the
platform of every `m`-th record arbitrarily leaves the breakdown unchanged,
and every platform entry of the joined frame is the platform of a `k`-th
payment record of that user. -/
theorem cycle_platform_from_k (rows : List CycleRow) (k m : ℤ)
    (f : String → String) (hkm : k ≠ m) :
    plat_list (alterPlatM f m rows) k m = plat_list rows k m ∧
    ∀ j ∈ joined rows k m, ∃ r ∈ rows,
      r.payment_count = k ∧ r.user_id = j.user_id ∧
      r.platform = j.platform := by
  constructor
  · rw [plat_list, joined_alter rows k m f hkm, plat_list]
  · intro j hj
    rw [joined] at hj
    rcases List.mem_flatMap.mp hj with ⟨rk, hrk, hmem⟩
    rcases List.mem_map.mp hmem with ⟨rm, _, rfl⟩
    have h1 := List.mem_filter.mp hrk
    have h2 := List.mem_filter.mp h1.1
    exact ⟨rk, h2.1, by simpa using h1.2, rfl, rfl⟩

/-- Witness for C10 with `k = 2`, `m = 3` on a two-row frame where one user
has both payment records. -/
theorem cycle_platform_from_k_witness :
    plat_list (alterPlatM (fun _ => "X") 3
        [⟨1, "P", 2, 10, 100⟩, ⟨1, "A", 3, 20, 130⟩]) 2 3
      = plat_list [⟨1, "P", 2, 10, 100⟩, ⟨1, "A", 3, 20, 130⟩] 2 3 ∧
    ∀ j ∈ joined [⟨1, "P", 2, 10, 100⟩, ⟨1, "A", 3, 20, 130⟩] 2 3,
      ∃ r ∈ ([⟨1, "P", 2, 10, 100⟩, ⟨1, "A", 3, 20, 130⟩] : List CycleRow),
        r.payment_count = 2 ∧ r.user_id = j.user_id ∧
        r.platform = j.platform :=
  cycle_platform_from_k [⟨1, "P", 2, 10, 100⟩, ⟨1, "A", 3, 20, 130⟩] 2 3
    (fun _ => "X") (by decide)

end NextSales
